import Mathlib

/-!
Shallow embedding of the local-evaluation runtime of the experiment Go SDK
(`pkg/experiment/local`): the streaming flag-config sync client
(`flag_config_stream_api.go`) and the evaluation / assignment-tracking
orchestration (`assignment_service.go`).  Go maps are modelled as
association lists with last-write-wins insertion, Go channels and
goroutine interleavings as explicit step functions on a state record, and
fallible Go code returns `Except`/`Option`.
-/

namespace ExperimentGo

/-- Association-list update modelling the Go map assignment `m[k] = v`:
an existing binding of `k` is replaced in place, otherwise the new
binding is appended. -/
def assocSet {κ α : Type} [DecidableEq κ] : List (κ × α) → κ → α → List (κ × α)
  | [], k, v => [(k, v)]
  | p :: rest, k, v =>
      if p.1 = k then (k, v) :: rest else p :: assocSet rest k v

/-- Association-list lookup modelling the Go map read `m[k]`
(`none` models the zero value / `ok = false`). -/
def assocGet {κ α : Type} [DecidableEq κ] : List (κ × α) → κ → Option α
  | [], _ => none
  | p :: rest, k => if p.1 = k then some p.2 else assocGet rest k

/-- The keys of an association list (the domain of the modelled Go map). -/
def assocKeys {κ α : Type} (m : List (κ × α)) : List κ :=
  m.map Prod.fst

/-- `evaluation.Flag`, restricted to the fields this package reads: the
unique `key`, the flag keys it depends on for evaluation ordering, the
cohort ids it references partitioned by group type, and its metadata map
(modelled with `String` values; the value type is irrelevant to the
claims about re-keying and ordering). -/
structure Flag where
  key : String
  dependencies : List String
  cohortIds : List (String × List String)
  metadata : List (String × String)
  deriving DecidableEq, Repr

/-- The loop of `parseData` (`flag_config_stream_api.go:164-167`):
`flags[flag.Key] = flag` over the decoded array, left to right. -/
def rekeyFlags (flagsArray : List Flag) : List (String × Flag) :=
  flagsArray.foldl (fun flags flag => assocSet flags flag.key flag) []

/-- A stream message payload as seen by `json.Unmarshal` into
`[]*evaluation.Flag`: either a well-formed array of flag objects or a
payload on which decoding fails. -/
inductive Payload where
  | wellFormed (flagsArray : List Flag)
  | corrupt (msg : String)
  deriving DecidableEq, Repr

/-- `parseData` (`flag_config_stream_api.go:157-170`): decode the payload
as an array of flag objects and re-key it into a mapping by flag key. -/
def parseData (data : Payload) : Except String (List (String × Flag)) :=
  match data with
  | .wellFormed flagsArray => .ok (rekeyFlags flagsArray)
  | .corrupt msg => .error msg

/-- The last flag in the array carrying the given key, if any (the binding
that survives the left-to-right re-keying loop). -/
def lastWithKey (k : String) : List Flag → Option Flag
  | [] => none
  | f :: rest =>
      match lastWithKey k rest with
      | some g => some g
      | none => if f.key = k then some f else none

/-- A sample flag used to witness the parse round-trip. -/
def flagA : Flag :=
  { key := "flag-a", dependencies := [], cohortIds := [], metadata := [] }

/-- A second sample flag used to witness the parse round-trip. -/
def flagB : Flag :=
  { key := "flag-b", dependencies := ["flag-a"], cohortIds := [],
    metadata := [("default", "false")] }

/-- The outcome that wins the three-way `select` race inside `Connect`
(`flag_config_stream_api.go:83-108`): the first stream message arrives, a
transport error arrives, or the connection timeout elapses.  The `select`
commits to exactly one of these; the inductive models the committed case. -/
inductive FirstRaceOutcome where
  | firstMessage (data : Payload)
  | transportError (e : String)
  | timedOut
  deriving DecidableEq, Repr

/-- A Go callback result: `none` models a `nil` error return. -/
abbrev CallbackResult := Option String

/-- The optional `OnInitUpdate` / `OnUpdate` callbacks of
`flagConfigStreamApiV2`, abstracted as result functions of the flag map
they are handed. -/
structure StreamCallbacks where
  onInitUpdate : Option (List (String × Flag) → CallbackResult)
  onUpdate : Option (List (String × Flag) → CallbackResult)

/-- The observable result of one `Connect` call: the returned error if
any, whether the freshly opened transport was closed again via
`closeStream`, and whether the background message loop was started. -/
structure ConnectResult where
  err : Option String
  transportClosed : Bool
  loopStarted : Bool
  deriving DecidableEq, Repr

/-- `Connect` (`flag_config_stream_api.go:51-155`) from the point where
the transport has been opened, as a function of the winning race outcome:
a first message is parsed and handed to `OnInitUpdate` (or else
`OnUpdate`); on parse failure, callback error, transport error or timeout
the stream is closed and an error returned with no background loop;
otherwise the stop channel is armed and the background loop started. -/
def connect (cbs : StreamCallbacks) (outcome : FirstRaceOutcome) : ConnectResult :=
  match outcome with
  | .firstMessage data =>
      match parseData data with
      | .error e =>
          { err := some ("stream corrupt data, cause: " ++ e),
            transportClosed := true, loopStarted := false }
      | .ok flags =>
          let cbResult : CallbackResult :=
            match cbs.onInitUpdate with
            | some cb => cb flags
            | none =>
                match cbs.onUpdate with
                | some cb => cb flags
                | none => none
          match cbResult with
          | some e =>
              { err := some e, transportClosed := true, loopStarted := false }
          | none =>
              { err := none, transportClosed := false, loopStarted := true }
  | .transportError e =>
      { err := some e, transportClosed := true, loopStarted := false }
  | .timedOut =>
      { err := some "stream connect timeout", transportClosed := true,
        loopStarted := false }

/-- The success criterion of `Connect`: the race was won by a first
message that parsed successfully and whose delivery callback (initial
update if registered, else general update, else nothing) returned no
error. -/
def acceptedFirstMessage (cbs : StreamCallbacks) (outcome : FirstRaceOutcome) : Prop :=
  match outcome with
  | .firstMessage data =>
      match parseData data with
      | .ok flags =>
          (match cbs.onInitUpdate with
           | some cb => cb flags
           | none =>
               match cbs.onUpdate with
               | some cb => cb flags
               | none => none) = none
      | .error _ => False
  | .transportError _ => False
  | .timedOut => False

/-- The state of one established streaming connection together with the
client fields the connection can touch: whether `a.stopCh` still points
at this connection's stop channel (`stopChField`, false models `nil`),
whether that channel has been closed, whether `closeStream` has released
the transport, whether the background loop is still running, whether an
`OnError` callback is registered, and how many times it has been invoked. -/
structure LoopState where
  stopChField : Bool
  chanClosed : Bool
  transportReleased : Bool
  loopRunning : Bool
  onErrorSet : Bool
  errNotified : Nat
  deriving DecidableEq, Repr

/-- The serialized atomic steps that can act on an established connection:
a `Close()` call, and the three `select` branches of the background loop
(stop channel observed closed, a message with well-formed or corrupt
payload, a transport error).  A branch whose Go guard does not hold (loop
already returned; stop channel not closed) is a no-op. -/
inductive LoopEv where
  | closeCall
  | loopStopObserved
  | loopMessage (data : Payload)
  | loopTransportError (e : String)
  deriving DecidableEq, Repr

/-- A stepping outcome: the next state, or a Go runtime panic (`close` of
an already-closed channel) carrying the state at the moment of the panic. -/
inductive StepRes where
  | next (s : LoopState)
  | panicked (s : LoopState)
  deriving DecidableEq, Repr

/-- The state carried by a stepping outcome. -/
def stateOf : StepRes → LoopState
  | .next s => s
  | .panicked s => s

/-- `Close` / `closeInternal` (`flag_config_stream_api.go:172-184`) under
the client lock: if `a.stopCh != nil`, `close(a.stopCh)` — a runtime
panic when the channel is already closed — and set the field to nil. -/
def closeStep (s : LoopState) : StepRes :=
  if s.stopChField then
    if s.chanClosed then .panicked s
    else .next { s with chanClosed := true, stopChField := false }
  else .next s

/-- `closeAllAndNotify` (`flag_config_stream_api.go:114-125`) under the
client lock: release the transport, detach `a.stopCh` if it still points
at this connection's channel, `close(stopCh)` — a runtime panic if that
channel was already closed — then invoke `OnError` if registered. -/
def closeAllAndNotify (s : LoopState) : StepRes :=
  let s1 := { s with transportReleased := true, stopChField := false }
  if s1.chanClosed then .panicked s1
  else
    .next { s1 with chanClosed := true,
                    errNotified :=
                      s1.errNotified + (if s1.onErrorSet then 1 else 0) }

/-- One interleaved step on an established connection
(`flag_config_stream_api.go:128-152` for the loop branches). -/
def loopStep (s : LoopState) : LoopEv → StepRes
  | .closeCall => closeStep s
  | .loopStopObserved =>
      if s.loopRunning && s.chanClosed then
        .next { s with transportReleased := true, loopRunning := false }
      else .next s
  | .loopMessage data =>
      if s.loopRunning then
        match parseData data with
        | .ok _ => .next s
        | .error _ =>
            match closeAllAndNotify s with
            | .next s2 => .next { s2 with loopRunning := false }
            | .panicked s2 => .panicked s2
      else .next s
  | .loopTransportError _ =>
      if s.loopRunning then
        match closeAllAndNotify s with
        | .next s2 => .next { s2 with loopRunning := false }
        | .panicked s2 => .panicked s2
      else .next s

/-- Run a sequence of interleaved steps; a panic is absorbing. -/
def runTrace (s : LoopState) : List LoopEv → StepRes
  | [] => .next s
  | ev :: evs =>
      match loopStep s ev with
      | .next s2 => runTrace s2 evs
      | .panicked s2 => .panicked s2

/-- The state immediately after a successful `Connect` with an `OnError`
callback registered (`flag_config_stream_api.go:110-152`): `a.stopCh`
points at the freshly made open channel, the transport is live, and the
background loop runs. -/
def connectedState : LoopState :=
  { stopChField := true, chanClosed := false, transportReleased := false,
    loopRunning := true, onErrorSet := true, errNotified := 0 }

/-- The state after the background loop of a connection (started with an
`OnError` callback registered) has handled one fatal event without any
concurrent `Close()`. -/
def errorClosedState : LoopState :=
  { stopChField := false, chanClosed := true, transportReleased := true,
    loopRunning := false, onErrorSet := true, errNotified := 1 }

/-- Loop events that the background loop treats as fatal: a transport
error, or a message whose payload fails to parse. -/
def fatalEv : LoopEv → Bool
  | .loopTransportError _ => true
  | .loopMessage (.corrupt _) => true
  | _ => false

/-- The invariant behind "the error callback fires at most once per
connection": while the loop still runs it has never fired, and it never
fires twice. -/
def loopInv (s : LoopState) : Prop :=
  (s.loopRunning = true → s.errNotified = 0) ∧ s.errNotified ≤ 1

/-- `experiment.User`, restricted to the fields read by this package:
ids, group memberships (group type → ordered list of group names), and
the two enrichment outputs.  The Go nested map
`map[groupType]map[groupName][]cohortId` is flattened to keys
`(groupType, groupName)`. -/
structure ExpUser where
  UserId : String
  DeviceId : String
  Groups : List (String × List String)
  CohortIds : List String
  GroupCohortIds : List ((String × String) × List String)
  deriving DecidableEq, Repr

/-- The variant reference carried by an assignment result
(`result.Variant.Key`). -/
structure VariantRef where
  Key : String
  deriving DecidableEq, Repr

/-- One entry of `assignment.results` as read by `toEvent`
(`assignment_service.go:21-57`): the flag type (field `Type` in Go, a
reserved word here), whether the chosen variant is the flag's default,
and the variant itself. -/
structure FlagResult where
  resultType : String
  IsDefaultVariant : Bool
  Variant : VariantRef
  deriving DecidableEq, Repr

/-- `Assignment`: the user, the full result mapping and a timestamp in
milliseconds. -/
structure Assignment where
  user : ExpUser
  results : List (String × FlagResult)
  timestamp : Int
  deriving DecidableEq, Repr

/-- `DayMillis` (`assignment_service.go:8`). -/
def DayMillis : Int := 24 * 60 * 60 * 1000

/-- The flag type excluded from user-property tracking
(`assignment_service.go:23`). -/
def FlagTypeMutualExclusionGroup : String := "mutual-exclusion-group"

/-- Modelled from the spec: `Assignment.Canonicalize` is not under
`src/`; §4.5 describes the canonical form as "a canonicalized ordered
rendering of flagKey.variant pairs across all results".  Rendered as the
sorted list of "flagKey variantKey" words. -/
def canonicalize (assignment : Assignment) : String :=
  String.intercalate " "
    ((assignment.results.map (fun p => p.1 ++ " " ++ p.2.Variant.Key)).mergeSort
      (fun x y => decide (x ≤ y)))

/-- Modelled from the spec: `hashCode` is not under `src/`; the spec
requires only "a hash of the canonicalized assignment", i.e. a
deterministic function of the canonical string.  Modelled as the classic
31-based string hash reduced modulo 2^32. -/
def hashCode (s : String) : Nat :=
  s.data.foldl (fun h c => (h * 31 + c.toNat) % 4294967296) 0

/-- The `amplitude.Event` fields built by `toEvent`; the `$set` / `$unset`
sub-maps of `UserProperties` are modelled as the two fields `SetProps` /
`UnsetProps`. -/
structure AmpEvent where
  EventType : String
  UserID : String
  DeviceID : String
  EventProperties : List (String × String)
  SetProps : List (String × String)
  UnsetProps : List (String × String)
  InsertID : String
  deriving DecidableEq, Repr

/-- `toEvent` (`assignment_service.go:21-57`): event properties get one
`<flagKey>.variant` entry per result; the `$set` / `$unset` maps skip
mutual-exclusion-group results and split the rest on
`IsDefaultVariant`; the insert id is
`"<userId> <deviceId> <hash> <dayBucket>"` with the day bucket the
timestamp divided by `DayMillis` (Go integer division truncates). -/
def toEvent (assignment : Assignment) : AmpEvent :=
  { EventType := "[Experiment] Assignment"
    UserID := assignment.user.UserId
    DeviceID := assignment.user.DeviceId
    EventProperties :=
      assignment.results.map (fun p => (p.1 ++ ".variant", p.2.Variant.Key))
    SetProps :=
      (assignment.results.filter
        (fun p => decide (p.2.resultType ≠ FlagTypeMutualExclusionGroup) &&
                  !p.2.IsDefaultVariant)).map
        (fun p => ("[Experiment] " ++ p.1, p.2.Variant.Key))
    UnsetProps :=
      (assignment.results.filter
        (fun p => decide (p.2.resultType ≠ FlagTypeMutualExclusionGroup) &&
                  p.2.IsDefaultVariant)).map
        (fun p => ("[Experiment] " ++ p.1, "-"))
    InsertID :=
      assignment.user.UserId ++ " " ++ assignment.user.DeviceId ++ " " ++
        toString (hashCode (canonicalize assignment)) ++ " " ++
        toString (assignment.timestamp.tdiv DayMillis) }

/-- A dynamically typed Go `interface{}` scalar as stored in variant
metadata and values. -/
inductive GoVal where
  | boolV (b : Bool)
  | strV (s : String)
  | intV (n : Int)
  deriving DecidableEq, Repr

/-- The Go type assertion `v.(bool)`: succeeds exactly when the dynamic
type is `bool` (a missing key gives the untyped `nil`, which fails). -/
def asBool : Option GoVal → Option Bool
  | some (.boolV b) => some b
  | _ => none

/-- `experiment.Variant` as built by `EvaluateV2`. -/
structure ExpVariant where
  Key : String
  Value : String
  Payload : Option GoVal
  Metadata : List (String × GoVal)
  deriving DecidableEq, Repr

/-- A per-flag result of the external evaluation engine
(`evaluation.Result`, an out-of-scope collaborator per §6). -/
structure EngineResult where
  Key : String
  Value : Option GoVal
  Payload : Option GoVal
  Metadata : List (String × GoVal)
  deriving DecidableEq, Repr

/-- `coerceString` (`assignment_service.go:384-396` of the concatenated
source), restricted to the modelled scalar values: nil becomes the empty
string, scalars are formatted as `%v` does. -/
def coerceString : Option GoVal → String
  | none => ""
  | some (.boolV b) => if b then "true" else "false"
  | some (.strV s) => s
  | some (.intV n) => toString n

/-- The client state read by evaluation: the flag-config storage snapshot
and the modelled collaborators — the cohort store reads (§4.4:
`GetCohortsForUser` / `GetCohortsForGroup` return the subset of candidate
ids the user/group is a member of) and the external evaluation engine
(§6). -/
structure ClientState where
  flagConfigStorage : List (String × Flag)
  getCohortsForUser : String → List String → List String
  getCohortsForGroup : String → String → List String → List String
  engine : ExpUser → List Flag → List (String × EngineResult)

/-- Modelled from the spec (§4.3): `FlagConfigStorage.GetFlagConfigs` is
not under `src/`; get-all returns the current snapshot. -/
def getFlagConfigs (c : ClientState) : List (String × Flag) :=
  c.flagConfigStorage

/-- Modelled from the spec (§4.3): `FlagConfigStorage.GetFlagConfig` is
not under `src/`; get-one-by-key returns nil if absent. -/
def getFlagConfig (c : ClientState) (key : String) : Option Flag :=
  assocGet c.flagConfigStorage key

/-- Modelled from the spec (§4.5(1)): the group type under which
user-level cohort ids are filed ("user-level vs. named group types"). -/
def userGroupType : String := "User"

/-- Modelled from the spec (§4.5(1)): `getGroupedCohortIDsFromFlags` is
not under `src/`; collect from the given flags every referenced cohort
id, grouped by the group type it applies to. -/
def getGroupedCohortIDsFromFlags (flags : List Flag) : List (String × List String) :=
  flags.foldl
    (fun acc f =>
      f.cohortIds.foldl
        (fun acc2 p =>
          assocSet acc2 p.1 (((assocGet acc2 p.1).getD []) ++ p.2).dedup)
        acc)
    []

/-- Modelled from the spec (§3 User): `User.AddGroupCohortIDs` (in
`pkg/experiment`, not under `src/`) attaches the resolved cohort ids
under (group type, group name). -/
def addGroupCohortIDs (u : ExpUser) (groupType groupName : String)
    (cohortIDs : List String) : ExpUser :=
  { u with GroupCohortIds := assocSet u.GroupCohortIds (groupType, groupName) cohortIDs }

/-- The first group name of a membership list, or `""` when there is none
(`enrichUser`, lines 413-417 of the concatenated source). -/
def firstName (groupNames : List String) : String :=
  match groupNames with
  | [] => ""
  | n :: _ => n

/-- One iteration of the `user.Groups` loop of `enrichUser` (lines
412-425 of the concatenated source): use only the first group name of
the type; skip the type when that name is missing or empty, or when the
flag set references no cohorts for the type. -/
def enrichGroupStep (c : ClientState) (groupedCohortIDs : List (String × List String))
    (u : ExpUser) (p : String × List String) : ExpUser :=
  let groupName := firstName p.2
  if groupName = "" then u
  else
    match assocGet groupedCohortIDs p.1 with
    | some cohortIDs =>
        addGroupCohortIDs u p.1 groupName
          (c.getCohortsForGroup p.1 groupName cohortIDs)
    | none => u

/-- `enrichUser` (lines 398-427 of the concatenated source): set the
user-level cohort ids from the store when the flag set references at
least one user-level cohort and the user id is non-empty, then walk the
user's group memberships.  The Go version returns `(user, nil)` — it
cannot fail — so the error result is dropped. -/
def enrichUser (c : ClientState) (user : ExpUser)
    (flagConfigs : List (String × Flag)) : ExpUser :=
  let groupedCohortIDs := getGroupedCohortIDsFromFlags (flagConfigs.map Prod.snd)
  let user1 :=
    match assocGet groupedCohortIDs userGroupType with
    | some cohortIDs =>
        if cohortIDs.length > 0 ∧ user.UserId ≠ "" then
          { user with CohortIds := c.getCohortsForUser user.UserId cohortIDs }
        else user
    | none => user
  user1.Groups.foldl (enrichGroupStep c groupedCohortIDs) user1

/-- Whether the `user.Groups` loop of `enrichUser` writes the key
`(gt, gn)`: some membership entry of type `gt` has `gn` as its first
group name, and `gn` is non-empty. -/
def groupTouched (groups : List (String × List String)) (gt gn : String) : Prop :=
  gn ≠ "" ∧ ∃ q ∈ groups, q.1 = gt ∧ firstName q.2 = gn

instance (groups : List (String × List String)) (gt gn : String) :
    Decidable (groupTouched groups gt gn) := by
  unfold groupTouched
  infer_instance

/-- Modelled from the spec (§4.5(3)): `topologicalSort` is not under
`src/` (only its caller `EvaluateV2` is).  Requested keys absent from the
snapshot are skipped; the dependency closure is collected, where a
dependency on a key absent from the snapshot is a fatal error. -/
def closureLoop (flagConfigs : List (String × Flag)) :
    Nat → List String → List String → Except String (List String)
  | 0, _, acc => .ok acc
  | _ + 1, [], acc => .ok acc
  | fuel + 1, k :: rest, acc =>
      if k ∈ acc then closureLoop flagConfigs fuel rest acc
      else
        match assocGet flagConfigs k with
        | none => .error ("flag dependency not found: " ++ k)
        | some f => closureLoop flagConfigs fuel (rest ++ f.dependencies) (acc ++ [k])

/-- Modelled from the spec (§4.5(3)): Kahn-style rounds emitting every
flag whose dependencies are already emitted; a round with no progress
reports a dependency cycle. -/
def kahnLoop (flagConfigs : List (String × Flag)) :
    Nat → List String → List String → List Flag → Except String (List Flag)
  | 0, pending, _, acc =>
      if pending.isEmpty then .ok acc else .error "flag dependency cycle detected"
  | fuel + 1, pending, done, acc =>
      if pending.isEmpty then .ok acc
      else
        let ready := pending.filter (fun k =>
          match assocGet flagConfigs k with
          | some f => f.dependencies.all (fun d => done.contains d)
          | none => false)
        if ready.isEmpty then .error "flag dependency cycle detected"
        else
          kahnLoop flagConfigs fuel
            (pending.filter (fun k => !(ready.contains k)))
            (done ++ ready)
            (acc ++ ready.filterMap (fun k => assocGet flagConfigs k))

/-- Modelled from the spec (§4.5(3)): compute a topological ordering of
the requested flags over the snapshot's declared dependency edges — a
flag is placed only after every flag it depends on; a dependency cycle,
or a dependency on a flag key absent from the snapshot, is a fatal
ordering error.  An empty request means all flags. -/
def topologicalSort (flagConfigs : List (String × Flag)) (flagKeys : List String) :
    Except String (List Flag) :=
  let requestedKeys := if flagKeys.isEmpty then assocKeys flagConfigs else flagKeys
  let roots := requestedKeys.filter (fun k => (assocGet flagConfigs k).isSome)
  let totalDeps := (flagConfigs.map (fun p => p.2.dependencies.length)).sum
  match closureLoop flagConfigs (roots.length + flagConfigs.length + totalDeps + 1) roots [] with
  | .error e => .error e
  | .ok closureKeys => kahnLoop flagConfigs (closureKeys.length + 1) closureKeys [] []

/-- `EvaluateV2` (lines 174-202 of the concatenated source): read the
snapshot, enrich the user in place, topologically sort the requested
flags (failure aborts the call with no results), run the engine and
translate each result into a caller-facing variant.  The state is
threaded explicitly; assignment tracking (fire-and-forget, modelled
separately via `toEvent`) touches neither the storage nor the returned
variants. -/
def EvaluateV2 (c : ClientState) (user : ExpUser) (flagKeys : List String) :
    ClientState × Except String (List (String × ExpVariant)) :=
  let flagConfigs := getFlagConfigs c
  let enrichedUser := enrichUser c user flagConfigs
  match topologicalSort flagConfigs flagKeys with
  | .error e => (c, .error e)
  | .ok sortedFlags =>
      let results := c.engine enrichedUser sortedFlags
      let variants := results.foldl
        (fun vs p =>
          assocSet vs p.1
            { Key := p.2.Key, Value := coerceString p.2.Value,
              Payload := p.2.Payload, Metadata := p.2.Metadata })
        []
      (c, .ok variants)

/-- The filter the deprecated `Evaluate` applies to each variant of
`EvaluateV2` (lines 158-169 of the concatenated source): keep it when
not marked default (a missing or non-boolean `"default"` counts as not
default) and marked deployed (a missing or non-boolean `"deployed"`
counts as deployed). -/
def variantKept (v : ExpVariant) : Bool :=
  !((asBool (assocGet v.Metadata "default")).getD false) &&
    ((asBool (assocGet v.Metadata "deployed")).getD true)

/-- Deprecated `Evaluate` (lines 152-172 of the concatenated source):
delegate to `EvaluateV2`, propagate its error, and filter the returned
variants through `variantKept`. -/
def Evaluate (c : ClientState) (user : ExpUser) (flagKeys : List String) :
    ClientState × Except String (List (String × ExpVariant)) :=
  match EvaluateV2 c user flagKeys with
  | (c2, .error e) => (c2, .error e)
  | (c2, .ok variants) =>
      (c2, .ok (variants.foldl
        (fun results p =>
          if variantKept p.2 then assocSet results p.1 p.2 else results)
        []))

/-- A heap of metadata maps: `FlagMetadata` hands out a Go map object, so
aliasing matters for the frame claim; metadata maps live in a heap
indexed by allocation order and stored flags hold references. -/
abbrev MetaHeap := List (List (String × String))

/-- Reading a map object through a reference. -/
def heapGet (h : MetaHeap) (r : Nat) : Option (List (String × String)) :=
  h[r]?

/-- Writing `m[k] = v` through a reference (no-op on a dangling one). -/
def heapWrite (h : MetaHeap) (r : Nat) (k v : String) : MetaHeap :=
  match h[r]? with
  | some m => h.set r (assocSet m k v)
  | none => h

/-- A stored flag config whose metadata map is a heap reference. -/
structure StoredFlag where
  key : String
  metadataRef : Nat
  deriving DecidableEq, Repr

/-- The flag-config store with the heap of metadata map objects. -/
structure StoreState where
  heap : MetaHeap
  flags : List (String × StoredFlag)
  deriving DecidableEq, Repr

/-- `FlagMetadata` (lines 217-230 of the concatenated source): look the
flag up (nil if absent), `make` a fresh map, copy every metadata entry
into it, and return the fresh map — never the stored one.  A `nil`
stored map (dangling reference) copies as empty. -/
def flagMetadata (st : StoreState) (flagKey : String) : StoreState × Option Nat :=
  match assocGet st.flags flagKey with
  | none => (st, none)
  | some f =>
      let copied := (heapGet st.heap f.metadataRef).getD []
      ({ st with heap := st.heap ++ [copied] }, some st.heap.length)

/-- The per-key effect of a guarded re-keying fold: the binding for `k`
when the source map has one and the guard keeps it, otherwise the
fallback. -/
def lookupStep {α : Type} (cond : String × α → Bool) (res : Option α)
    (k : String) (fallback : Option α) : Option α :=
  match res with
  | some v => if cond (k, v) then some v else fallback
  | none => fallback

/-- A sample user for the assignment-event witnesses. -/
def sampleUser : ExpUser :=
  { UserId := "user-1", DeviceId := "device-1", Groups := [],
    CohortIds := [], GroupCohortIds := [] }

/-- A sample result set containing an ordinary experiment result and a
mutual-exclusion-group result. -/
def megResults : List (String × FlagResult) :=
  [("exp-1",
    { resultType := "experiment", IsDefaultVariant := false,
      Variant := { Key := "treatment" } }),
   ("group-1",
    { resultType := "mutual-exclusion-group", IsDefaultVariant := false,
      Variant := { Key := "slot-1" } })]

/-- A sample assignment. -/
def megAssignment : Assignment :=
  { user := sampleUser, results := megResults, timestamp := 1699999999999 }

/-- The same assignment observed earlier within the same day bucket. -/
def megAssignment2 : Assignment :=
  { user := sampleUser, results := megResults, timestamp := 1699999999000 }

/-- A one-flag store used to witness the metadata-copy frame property. -/
def sampleStore : StoreState :=
  { heap := [[("default", "true")]],
    flags := [("flag-a", { key := "flag-a", metadataRef := 0 })] }

/-- The spec's concrete dependency scenario: `checkout-button` depends on
`holdout`. -/
def checkoutFlag : Flag :=
  { key := "checkout-button", dependencies := ["holdout"], cohortIds := [],
    metadata := [] }

/-- A client whose snapshot holds `checkout-button` but not its
dependency `holdout`. -/
def missingDepState : ClientState :=
  { flagConfigStorage := [("checkout-button", checkoutFlag)],
    getCohortsForUser := fun _ _ => [],
    getCohortsForGroup := fun _ _ _ => [],
    engine := fun _ _ => [] }

/-- A client with a single independent flag and an engine returning one
result per handed flag. -/
def evalState : ClientState :=
  { flagConfigStorage := [("flag-a", flagA)],
    getCohortsForUser := fun _ _ => [],
    getCohortsForGroup := fun _ _ _ => [],
    engine := fun _ flags =>
      flags.map (fun f =>
        (f.key,
         { Key := "on", Value := some (GoVal.strV "v"), Payload := none,
           Metadata := [] })) }

end ExperimentGo

namespace ExperimentGo

theorem assocKeys_nil {κ α : Type} : assocKeys ([] : List (κ × α)) = [] := rfl

theorem assocKeys_cons {κ α : Type} (p : κ × α) (rest : List (κ × α)) :
    assocKeys (p :: rest) = p.1 :: assocKeys rest := rfl

theorem assocGet_assocSet {κ α : Type} [DecidableEq κ]
    (m : List (κ × α)) (k k' : κ) (v : α) :
    assocGet (assocSet m k v) k' = if k' = k then some v else assocGet m k' := by
  induction m with
  | nil =>
    by_cases h : k' = k
    · simp [assocSet, assocGet, h]
    · have hne : ¬ k = k' := fun hh => h hh.symm
      simp [assocSet, assocGet, h, hne]
  | cons p rest ih =>
    by_cases h : p.1 = k
    · by_cases h2 : k' = k
      · simp [assocSet, assocGet, h, h2]
      · have hne : ¬ k = k' := fun hh => h2 hh.symm
        have hne2 : ¬ p.1 = k' := by rw [h]; exact hne
        simp [assocSet, assocGet, h, h2, hne, hne2]
    · by_cases h2 : p.1 = k'
      · have hne : ¬ k' = k := by rw [← h2]; exact fun hh => h hh
        simp [assocSet, assocGet, h, h2, hne]
      · simp [assocSet, assocGet, h, h2, ih]

theorem mem_assocKeys_assocSet {κ α : Type} [DecidableEq κ]
    (m : List (κ × α)) (k x : κ) (v : α) :
    x ∈ assocKeys (assocSet m k v) ↔ x = k ∨ x ∈ assocKeys m := by
  induction m with
  | nil => simp [assocSet, assocKeys]
  | cons p rest ih =>
    by_cases h : p.1 = k
    · simp [assocSet, h, assocKeys_cons, List.mem_cons]
    · simp [assocSet, h, assocKeys_cons, List.mem_cons, ih]
      tauto

theorem mem_assocKeys_iff_isSome {κ α : Type} [DecidableEq κ]
    (m : List (κ × α)) (k : κ) :
    k ∈ assocKeys m ↔ (assocGet m k).isSome := by
  induction m with
  | nil => simp [assocKeys, assocGet]
  | cons p rest ih =>
    by_cases hp : p.1 = k
    · simp [assocKeys_cons, assocGet, hp]
    · have : ¬ k = p.1 := fun hh => hp hh.symm
      simp [assocKeys_cons, assocGet, hp, this, ih]

theorem assocKeys_nodup_assocSet {κ α : Type} [DecidableEq κ]
    (m : List (κ × α)) (k : κ) (v : α) (h : (assocKeys m).Nodup) :
    (assocKeys (assocSet m k v)).Nodup := by
  induction m with
  | nil => simp [assocSet, assocKeys]
  | cons p rest ih =>
    rw [assocKeys_cons] at h
    have hhd : p.1 ∉ assocKeys rest := (List.nodup_cons.1 h).1
    have htl : (assocKeys rest).Nodup := (List.nodup_cons.1 h).2
    by_cases hp : p.1 = k
    · simp only [assocSet, hp, if_pos rfl, assocKeys_cons]
      exact List.nodup_cons.2 ⟨hp ▸ hhd, htl⟩
    · simp only [assocSet, hp, if_neg hp, assocKeys_cons]
      refine List.nodup_cons.2 ⟨?_, ih htl⟩
      intro hmem
      rcases (mem_assocKeys_assocSet rest k p.1 v).1 hmem with hk | hmem2
      · exact hp hk
      · exact hhd hmem2

theorem rekeyLoop_nodup (fl : List Flag) :
    ∀ m : List (String × Flag), (assocKeys m).Nodup →
      (assocKeys (fl.foldl (fun flags flag => assocSet flags flag.key flag) m)).Nodup := by
  induction fl with
  | nil => intro m hm; simpa using hm
  | cons f t ih =>
    intro m hm
    simpa [List.foldl_cons] using ih _ (assocKeys_nodup_assocSet m f.key f hm)

theorem rekeyLoop_mem_keys (fl : List Flag) :
    ∀ (m : List (String × Flag)) (k : String),
      k ∈ assocKeys (fl.foldl (fun flags flag => assocSet flags flag.key flag) m) ↔
        k ∈ fl.map Flag.key ∨ k ∈ assocKeys m := by
  induction fl with
  | nil => intro m k; simp
  | cons f t ih =>
    intro m k
    rw [List.foldl_cons, ih (assocSet m f.key f) k, mem_assocKeys_assocSet,
      List.map_cons, List.mem_cons]
    tauto

theorem rekeyLoop_assocGet (fl : List Flag) :
    ∀ (m : List (String × Flag)) (k : String),
      assocGet (fl.foldl (fun flags flag => assocSet flags flag.key flag) m) k =
        match lastWithKey k fl with
        | some g => some g
        | none => assocGet m k := by
  induction fl with
  | nil => intro m k; simp [lastWithKey]
  | cons f t ih =>
    intro m k
    rw [List.foldl_cons, ih (assocSet m f.key f) k]
    cases hlast : lastWithKey k t with
    | some g => simp [lastWithKey, hlast]
    | none =>
      rw [assocGet_assocSet]
      by_cases hk : f.key = k
      · simp [lastWithKey, hlast, hk]
      · have : ¬ k = f.key := fun hh => hk hh.symm
        simp [lastWithKey, hlast, hk, this]

theorem lastWithKey_mem (k : String) (fl : List Flag) (g : Flag)
    (h : lastWithKey k fl = some g) : g ∈ fl ∧ g.key = k := by
  induction fl with
  | nil => simp [lastWithKey] at h
  | cons f t ih =>
    rw [lastWithKey] at h
    cases hlast : lastWithKey k t with
    | some g2 =>
      rw [hlast] at h
      obtain ⟨hmem, hk⟩ := ih (hlast.trans (by injection h with hh; rw [hh]))
      exact ⟨List.mem_cons_of_mem f hmem, hk⟩
    | none =>
      rw [hlast] at h
      by_cases hk : f.key = k
      · rw [if_pos hk] at h
        injection h with hh
        exact ⟨hh ▸ List.mem_cons_self f t, hh ▸ hk⟩
      · rw [if_neg hk] at h
        cases h

theorem lastWithKey_isSome (k : String) (fl : List Flag) (f : Flag)
    (hmem : f ∈ fl) (hk : f.key = k) : (lastWithKey k fl).isSome := by
  induction fl with
  | nil => cases hmem
  | cons g t ih =>
    rw [lastWithKey]
    cases hlast : lastWithKey k t with
    | some g2 => simp
    | none =>
      rcases List.mem_cons.1 hmem with hfg | hmem2
      · have : g.key = k := by rw [← hfg]; exact hk
        simp [this]
      · have := ih hmem2
        rw [hlast] at this
        cases this

theorem countP_one_unique (fl : List Flag) (k : String)
    (h : fl.countP (fun g => decide (g.key = k)) = 1)
    (f g : Flag) (hf : f ∈ fl) (hfk : f.key = k) (hg : g ∈ fl) (hgk : g.key = k) :
    f = g := by
  have hlen : (fl.filter (fun g => decide (g.key = k))).length = 1 := by
    rw [← h]
    exact (List.countP_eq_length_filter _ _).symm
  rcases List.length_eq_one.1 hlen with ⟨a, ha⟩
  have hf2 : f ∈ fl.filter (fun g => decide (g.key = k)) :=
    List.mem_filter.2 ⟨hf, by simp [hfk]⟩
  have hg2 : g ∈ fl.filter (fun g => decide (g.key = k)) :=
    List.mem_filter.2 ⟨hg, by simp [hgk]⟩
  rw [ha, List.mem_singleton] at hf2 hg2
  rw [hf2, hg2]

/-- C2: for every valid JSON payload that is an array of flag objects,
`parseData` succeeds and produces a mapping whose key set is exactly the
set of flag keys of the array, with no duplicate entries (exactly one
entry per distinct key), and looking up the key of any flag that occurs
for a distinct key of the array returns that flag object unchanged. -/
theorem parseData_roundtrip (flagsArray : List Flag) :
    parseData (.wellFormed flagsArray) = .ok (rekeyFlags flagsArray) ∧
    (assocKeys (rekeyFlags flagsArray)).Nodup ∧
    (∀ k, k ∈ assocKeys (rekeyFlags flagsArray) ↔ k ∈ flagsArray.map Flag.key) ∧
    (∀ f, f ∈ flagsArray →
      flagsArray.countP (fun g => decide (g.key = f.key)) = 1 →
      assocGet (rekeyFlags flagsArray) f.key = some f) := by
  refine ⟨rfl, ?_, ?_, ?_⟩
  · exact rekeyLoop_nodup flagsArray [] (by simp [assocKeys])
  · intro k
    have h := rekeyLoop_mem_keys flagsArray [] k
    simpa [rekeyFlags, assocKeys] using h
  · intro f hf hcount
    have hget := rekeyLoop_assocGet flagsArray [] f.key
    have hsome := lastWithKey_isSome f.key flagsArray f hf rfl
    cases hlast : lastWithKey f.key flagsArray with
    | none =>
      rw [hlast] at hsome
      cases hsome
    | some g =>
      obtain ⟨hgmem, hgkey⟩ := lastWithKey_mem f.key flagsArray g hlast
      have hfg : f = g := countP_one_unique flagsArray f.key hcount f g hf rfl hgmem hgkey
      rw [rekeyFlags, hget, hlast, ← hfg]

/-- Witness for `parseData_roundtrip`: a concrete two-flag payload, looked
up at the key of the first flag. -/
theorem parseData_roundtrip_witness :
    flagA ∈ [flagA, flagB] ∧
    [flagA, flagB].countP (fun g => decide (g.key = flagA.key)) = 1 ∧
    assocGet (rekeyFlags [flagA, flagB]) flagA.key = some flagA := by
  have h1 : flagA ∈ [flagA, flagB] := List.mem_cons_self flagA [flagB]
  have h2 : [flagA, flagB].countP (fun g => decide (g.key = flagA.key)) = 1 := by
    decide
  exact ⟨h1, h2, (parseData_roundtrip [flagA, flagB]).2.2.2 flagA h1 h2⟩

/-- C3: the `select` in `Connect` commits to exactly one of the three
raced outcomes (the argument of `connect` is that committed outcome); in
every outcome other than a successfully parsed and accepted first message
— transport error, timeout, first-message parse failure, or a callback
rejection — `Connect` closes the transport, returns an error, and does
not start the background loop. -/
theorem connect_failure_paths (cbs : StreamCallbacks) (outcome : FirstRaceOutcome)
    (h : ¬ acceptedFirstMessage cbs outcome) :
    (connect cbs outcome).transportClosed = true ∧
    (connect cbs outcome).err.isSome = true ∧
    (connect cbs outcome).loopStarted = false := by
  cases outcome with
  | firstMessage data =>
    cases data with
    | corrupt msg => simp [connect, parseData]
    | wellFormed flagsArray =>
      unfold acceptedFirstMessage parseData at h
      unfold connect parseData
      cases hcb : (match cbs.onInitUpdate with
                   | some cb => cb (rekeyFlags flagsArray)
                   | none =>
                       match cbs.onUpdate with
                       | some cb => cb (rekeyFlags flagsArray)
                       | none => none) with
      | some e => simp [hcb]
      | none => exact absurd hcb h
  | transportError e => simp [connect]
  | timedOut => simp [connect]

/-- Witness for `connect_failure_paths`: a timeout with no callbacks
registered. -/
theorem connect_failure_paths_witness :
    (connect { onInitUpdate := none, onUpdate := none } .timedOut).transportClosed = true ∧
    (connect { onInitUpdate := none, onUpdate := none } .timedOut).err.isSome = true ∧
    (connect { onInitUpdate := none, onUpdate := none } .timedOut).loopStarted = false :=
  connect_failure_paths { onInitUpdate := none, onUpdate := none } .timedOut
    (by simp [acceptedFirstMessage])

/-- C1 (refuting interleaving): from an established connection, a
completed `Close()` followed by the background loop servicing a pending
transport error — a legal `select` choice, since a closed stop channel
and a ready error channel are both selectable — reaches the unconditional
`close(stopCh)` in `closeAllAndNotify` with the stop channel already
closed: a Go runtime panic, i.e. the stop channel is closed a second
time rather than exactly once. -/
theorem close_race_panics :
    runTrace connectedState [.closeCall, .loopTransportError "stream error"] =
      .panicked { stopChField := false, chanClosed := true,
                  transportReleased := true, loopRunning := true,
                  onErrorSet := true, errNotified := 0 } := by
  decide

theorem closeAllAndNotify_eq (s : LoopState) :
    closeAllAndNotify s =
      if s.chanClosed then
        .panicked { s with transportReleased := true, stopChField := false }
      else
        .next { s with transportReleased := true, stopChField := false,
                       chanClosed := true,
                       errNotified :=
                         s.errNotified + (if s.onErrorSet then 1 else 0) } := by
  cases s
  rfl

theorem loopInv_afterFatal (s : LoopState) (h0 : s.errNotified = 0) :
    loopInv { s with transportReleased := true, stopChField := false,
                     chanClosed := true, loopRunning := false,
                     errNotified :=
                       s.errNotified + (if s.onErrorSet then 1 else 0) } := by
  constructor
  · intro hh
    exact absurd hh (by simp)
  · show s.errNotified + (if s.onErrorSet then 1 else 0) ≤ 1
    rw [h0]
    cases ho : s.onErrorSet <;> simp [ho]

theorem loopStep_inv (s : LoopState) (ev : LoopEv) (h : loopInv s) :
    loopInv (stateOf (loopStep s ev)) := by
  obtain ⟨h1, h2⟩ := h
  cases ev with
  | closeCall =>
    simp only [loopStep, closeStep]
    by_cases hf : s.stopChField
    · by_cases hc : s.chanClosed
      · rw [if_pos hf, if_pos hc]
        exact ⟨h1, h2⟩
      · rw [if_pos hf, if_neg hc]
        exact ⟨h1, h2⟩
    · rw [if_neg hf]
      exact ⟨h1, h2⟩
  | loopStopObserved =>
    simp only [loopStep]
    by_cases hg : (s.loopRunning && s.chanClosed) = true
    · rw [if_pos hg]
      refine ⟨fun hh => absurd hh (by simp [stateOf]), h2⟩
    · rw [if_neg hg]
      exact ⟨h1, h2⟩
  | loopMessage data =>
    simp only [loopStep]
    by_cases hr : s.loopRunning
    · cases data with
      | wellFormed fl =>
        rw [if_pos hr]
        exact ⟨h1, h2⟩
      | corrupt msg =>
        have h0 : s.errNotified = 0 := h1 hr
        rw [if_pos hr]
        show loopInv (stateOf
          (match closeAllAndNotify s with
           | .next s2 => .next { s2 with loopRunning := false }
           | .panicked s2 => .panicked s2))
        rw [closeAllAndNotify_eq]
        by_cases hc : s.chanClosed
        · rw [if_pos hc]
          exact ⟨h1, h2⟩
        · rw [if_neg hc]
          exact loopInv_afterFatal s h0
    · rw [if_neg hr]
      exact ⟨h1, h2⟩
  | loopTransportError e =>
    simp only [loopStep]
    by_cases hr : s.loopRunning
    · have h0 : s.errNotified = 0 := h1 hr
      rw [if_pos hr, closeAllAndNotify_eq]
      by_cases hc : s.chanClosed
      · rw [if_pos hc]
        exact ⟨h1, h2⟩
      · rw [if_neg hc]
        exact loopInv_afterFatal s h0
    · rw [if_neg hr]
      exact ⟨h1, h2⟩

theorem runTrace_inv (evs : List LoopEv) :
    ∀ s : LoopState, loopInv s → loopInv (stateOf (runTrace s evs)) := by
  induction evs with
  | nil => intro s h; exact h
  | cons ev evs ih =>
    intro s h
    have hstep := loopStep_inv s ev h
    unfold runTrace
    cases hres : loopStep s ev with
    | next s2 =>
      rw [hres] at hstep
      exact ih s2 hstep
    | panicked s2 =>
      rw [hres] at hstep
      exact hstep

theorem runTrace_errorClosed_fixed (evs : List LoopEv)
    (hnc : LoopEv.closeCall ∉ evs) :
    runTrace errorClosedState evs = .next errorClosedState := by
  induction evs with
  | nil => rfl
  | cons ev evs ih =>
    have hne : ev ≠ .closeCall := fun hh => hnc (hh ▸ List.mem_cons_self ev evs)
    have htail : LoopEv.closeCall ∉ evs := fun hh => hnc (List.mem_cons_of_mem ev hh)
    have hstep : loopStep errorClosedState ev = .next errorClosedState := by
      cases ev with
      | closeCall => exact absurd rfl hne
      | loopStopObserved => simp [loopStep, errorClosedState]
      | loopMessage data => simp [loopStep, errorClosedState]
      | loopTransportError e => simp [loopStep, errorClosedState]
    rw [runTrace, hstep]
    exact ih htail

theorem runTrace_connected_chars (evs : List LoopEv)
    (hnc : LoopEv.closeCall ∉ evs) :
    runTrace connectedState evs =
      .next (if evs.any fatalEv then errorClosedState else connectedState) := by
  induction evs with
  | nil => rfl
  | cons ev evs ih =>
    have hne : ev ≠ .closeCall := fun hh => hnc (hh ▸ List.mem_cons_self ev evs)
    have htail : LoopEv.closeCall ∉ evs := fun hh => hnc (List.mem_cons_of_mem ev hh)
    by_cases hfatal : fatalEv ev = true
    · have hstep : loopStep connectedState ev = .next errorClosedState := by
        cases ev with
        | closeCall => exact absurd rfl hne
        | loopStopObserved => simp [fatalEv] at hfatal
        | loopMessage data =>
          cases data with
          | wellFormed fl => simp [fatalEv] at hfatal
          | corrupt msg => rfl
        | loopTransportError e => rfl
      simp only [runTrace, hstep]
      rw [runTrace_errorClosed_fixed evs htail]
      simp [List.any_cons, hfatal]
    · have hfatal2 : fatalEv ev = false := by
        revert hfatal
        cases fatalEv ev <;> simp
      have hstep : loopStep connectedState ev = .next connectedState := by
        cases ev with
        | closeCall => exact absurd rfl hne
        | loopStopObserved => rfl
        | loopMessage data =>
          cases data with
          | wellFormed fl => rfl
          | corrupt msg => simp [fatalEv] at hfatal2
        | loopTransportError e => simp [fatalEv] at hfatal2
      simp only [runTrace, hstep]
      rw [ih htail]
      simp [List.any_cons, hfatal2]

/-- C6: over every interleaving of `Close()` calls and background-loop
branches on an established connection, the registered error callback
fires at most once; and over every connection lifetime without a
concurrent `Close()` in which a transport error or corrupt update payload
arrives, it fires exactly once, after which `a.stopCh` is nil (the stop
channel marked no longer active), the transport is released and the loop
has returned. -/
theorem errorCallback_once :
    (∀ evs : List LoopEv, (stateOf (runTrace connectedState evs)).errNotified ≤ 1) ∧
    (∀ evs : List LoopEv, LoopEv.closeCall ∉ evs → evs.any fatalEv = true →
      runTrace connectedState evs = .next errorClosedState) := by
  constructor
  · intro evs
    exact (runTrace_inv evs connectedState ⟨fun _ => rfl, by simp [connectedState]⟩).2
  · intro evs hnc hfatal
    rw [runTrace_connected_chars evs hnc, hfatal]
    rfl

/-- Witness for `errorCallback_once`: a healthy update followed by a
transport error notifies the error callback exactly once. -/
theorem errorCallback_once_witness :
    runTrace connectedState
        [.loopMessage (.wellFormed []), .loopTransportError "stream error"] =
      .next errorClosedState :=
  errorCallback_once.2 [.loopMessage (.wellFormed []), .loopTransportError "stream error"]
    (by decide) (by decide)

theorem nodupKeys_mem_unique {κ α : Type} (l : List (κ × α))
    (h : (assocKeys l).Nodup) {k : κ} {r r' : α}
    (hr : (k, r) ∈ l) (hr' : (k, r') ∈ l) : r = r' := by
  induction l with
  | nil => cases hr
  | cons p rest ih =>
    rw [assocKeys_cons] at h
    have hhd := (List.nodup_cons.1 h).1
    have htl := (List.nodup_cons.1 h).2
    rcases List.mem_cons.1 hr with he | hm
    · rcases List.mem_cons.1 hr' with he2 | hm2
      · have : (k, r) = ((k, r') : κ × α) := he.trans he2.symm
        exact congrArg Prod.snd this
      · exfalso
        apply hhd
        have hp1 : p.1 = k := by rw [← he]
        rw [hp1]
        exact List.mem_map.2 ⟨(k, r'), hm2, rfl⟩
    · rcases List.mem_cons.1 hr' with he2 | hm2
      · exfalso
        apply hhd
        have hp1 : p.1 = k := by rw [← he2]
        rw [hp1]
        exact List.mem_map.2 ⟨(k, r), hm, rfl⟩
      · exact ih htl hm hm2

theorem string_append_cancel_left {s t u : String} (h : s ++ t = s ++ u) :
    t = u := by
  have hd : (s ++ t).data = (s ++ u).data := by rw [h]
  rw [String.data_append, String.data_append] at hd
  have hdata := List.append_cancel_left hd
  cases t
  cases u
  exact congrArg String.mk hdata

theorem meg_notMem_prefixed (results : List (String × FlagResult))
    (hnodup : (assocKeys results).Nodup) (k : String) (r : FlagResult)
    (hmem : (k, r) ∈ results)
    (hmeg : r.resultType = FlagTypeMutualExclusionGroup)
    (pred : String × FlagResult → Bool)
    (hpred : ∀ p, pred p = true → p.2.resultType ≠ FlagTypeMutualExclusionGroup)
    (valf : String × FlagResult → String) :
    ("[Experiment] " ++ k) ∉
      assocKeys ((results.filter pred).map
        (fun p => ("[Experiment] " ++ p.1, valf p))) := by
  intro hk
  rcases List.mem_map.1 hk with ⟨q, hq, hfst⟩
  rcases List.mem_map.1 hq with ⟨p, hp, hpq⟩
  have hfst2 : "[Experiment] " ++ p.1 = "[Experiment] " ++ k := by
    rw [← hfst, ← hpq]
  have hkey : p.1 = k := string_append_cancel_left hfst2
  have hpmem : p ∈ results := (List.mem_filter.1 hp).1
  have hprd : pred p = true := (List.mem_filter.1 hp).2
  have hne : p.2.resultType ≠ FlagTypeMutualExclusionGroup := hpred p hprd
  have hmem2 : (k, p.2) ∈ results := by
    rw [← hkey]
    exact hpmem
  have heq : p.2 = r := nodupKeys_mem_unique results hnodup hmem2 hmem
  exact hne (by rw [heq, hmeg])

/-- C5: in every assignment event built by `toEvent`, every result
contributes a `<flagKey>.variant` entry to the event properties, while
results of type mutual-exclusion-group contribute no entry to the `$set`
or `$unset` user-property maps. -/
theorem toEvent_meg_exclusion (a : Assignment)
    (hnodup : (assocKeys a.results).Nodup) :
    (∀ k r, (k, r) ∈ a.results →
      (k ++ ".variant", r.Variant.Key) ∈ (toEvent a).EventProperties) ∧
    (∀ k r, (k, r) ∈ a.results →
      r.resultType = FlagTypeMutualExclusionGroup →
      ("[Experiment] " ++ k) ∉ assocKeys (toEvent a).SetProps ∧
      ("[Experiment] " ++ k) ∉ assocKeys (toEvent a).UnsetProps) := by
  constructor
  · intro k r hmem
    exact List.mem_map.2 ⟨(k, r), hmem, rfl⟩
  · intro k r hmem hmeg
    constructor
    · exact meg_notMem_prefixed a.results hnodup k r hmem hmeg _
        (fun p hp => of_decide_eq_true (Bool.and_eq_true _ _ ▸ hp).1) _
    · exact meg_notMem_prefixed a.results hnodup k r hmem hmeg _
        (fun p hp => of_decide_eq_true (Bool.and_eq_true _ _ ▸ hp).1) _

/-- Witness for `toEvent_meg_exclusion`: the mutual-exclusion-group
result of a concrete assignment. -/
theorem toEvent_meg_exclusion_witness :
    (("group-1" ++ ".variant", "slot-1") ∈
      (toEvent megAssignment).EventProperties) ∧
    ("[Experiment] " ++ "group-1") ∉ assocKeys (toEvent megAssignment).SetProps ∧
    ("[Experiment] " ++ "group-1") ∉ assocKeys (toEvent megAssignment).UnsetProps := by
  have h := toEvent_meg_exclusion megAssignment (by decide)
  have hmem : ("group-1",
      ({ resultType := "mutual-exclusion-group", IsDefaultVariant := false,
         Variant := { Key := "slot-1" } } : FlagResult)) ∈ megAssignment.results := by
    decide
  exact ⟨h.1 "group-1" _ hmem, (h.2 "group-1" _ hmem rfl).1,
    (h.2 "group-1" _ hmem rfl).2⟩

/-- C8: the insert id of every emitted assignment event is exactly
`"<userId> <deviceId> <hash(canonicalized assignment)> <timestamp div
DayMillis>"`, so any two assignments agreeing on those four components
get the same insert id. -/
theorem toEvent_insertId_deterministic (a b : Assignment)
    (hu : a.user.UserId = b.user.UserId)
    (hd : a.user.DeviceId = b.user.DeviceId)
    (hh : hashCode (canonicalize a) = hashCode (canonicalize b))
    (ht : a.timestamp.tdiv DayMillis = b.timestamp.tdiv DayMillis) :
    (toEvent a).InsertID =
      a.user.UserId ++ " " ++ a.user.DeviceId ++ " " ++
        toString (hashCode (canonicalize a)) ++ " " ++
        toString (a.timestamp.tdiv DayMillis) ∧
    (toEvent a).InsertID = (toEvent b).InsertID := by
  constructor
  · rfl
  · show a.user.UserId ++ " " ++ a.user.DeviceId ++ " " ++
        toString (hashCode (canonicalize a)) ++ " " ++
        toString (a.timestamp.tdiv DayMillis) =
      b.user.UserId ++ " " ++ b.user.DeviceId ++ " " ++
        toString (hashCode (canonicalize b)) ++ " " ++
        toString (b.timestamp.tdiv DayMillis)
    rw [hu, hd, hh, ht]

/-- Witness for `toEvent_insertId_deterministic`: two assignments equal
up to a timestamp shift within one day bucket share the insert id. -/
theorem toEvent_insertId_deterministic_witness :
    (toEvent megAssignment).InsertID = (toEvent megAssignment2).InsertID :=
  (toEvent_insertId_deterministic megAssignment megAssignment2 rfl rfl rfl
    (by decide)).2

/-- C4: whenever the topological ordering of the requested flags fails
(dependency cycle or dependency on a key absent from the snapshot),
`EvaluateV2` returns that error with no variant mapping, and the shared
flag-config snapshot is unchanged by the call. -/
theorem evaluateV2_orderError (c : ClientState) (user : ExpUser)
    (flagKeys : List String) (e : String)
    (h : topologicalSort (getFlagConfigs c) flagKeys = .error e) :
    (EvaluateV2 c user flagKeys).2 = .error e ∧
    (EvaluateV2 c user flagKeys).1.flagConfigStorage = c.flagConfigStorage := by
  simp only [EvaluateV2]
  rw [h]
  exact ⟨rfl, rfl⟩

/-- Witness for `evaluateV2_orderError`: the spec's scenario — requesting
`checkout-button` and `holdout` when `holdout` is absent from the
snapshot fails with a dependency error, returns no variants, and leaves
the snapshot untouched. -/
theorem evaluateV2_orderError_witness :
    topologicalSort (getFlagConfigs missingDepState) ["checkout-button", "holdout"] =
      .error "flag dependency not found: holdout" ∧
    (EvaluateV2 missingDepState sampleUser ["checkout-button", "holdout"]).2 =
      .error "flag dependency not found: holdout" ∧
    (EvaluateV2 missingDepState sampleUser ["checkout-button", "holdout"]).1.flagConfigStorage =
      missingDepState.flagConfigStorage := by
  have h : topologicalSort (getFlagConfigs missingDepState)
      ["checkout-button", "holdout"] =
      .error "flag dependency not found: holdout" := by rfl
  exact ⟨h, (evaluateV2_orderError missingDepState sampleUser _ _ h).1,
    (evaluateV2_orderError missingDepState sampleUser _ _ h).2⟩

theorem foldSet_nodup {β κ α : Type} [DecidableEq κ] (keyf : β → κ) (valf : β → α)
    (xs : List β) :
    ∀ m : List (κ × α), (assocKeys m).Nodup →
      (assocKeys (xs.foldl (fun acc x => assocSet acc (keyf x) (valf x)) m)).Nodup := by
  induction xs with
  | nil => intro m hm; exact hm
  | cons x t ih =>
    intro m hm
    exact ih _ (assocKeys_nodup_assocSet m (keyf x) (valf x) hm)

theorem evaluateV2_ok_nodup (c : ClientState) (user : ExpUser)
    (flagKeys : List String) (variants : List (String × ExpVariant))
    (h : (EvaluateV2 c user flagKeys).2 = .ok variants) :
    (assocKeys variants).Nodup := by
  simp only [EvaluateV2] at h
  cases hts : topologicalSort (getFlagConfigs c) flagKeys with
  | error e =>
    rw [hts] at h
    cases h
  | ok sorted =>
    rw [hts] at h
    simp only at h
    have hvar := h.symm
    injection hvar with hvar2
    rw [hvar2]
    exact foldSet_nodup (fun p => p.1)
      (fun p => ({ Key := p.2.Key, Value := coerceString p.2.Value,
                   Payload := p.2.Payload, Metadata := p.2.Metadata } : ExpVariant))
      (c.engine (enrichUser c user (getFlagConfigs c)) sorted) []
      (by simp [assocKeys])

theorem condFold_assocGet {α : Type} (cond : String × α → Bool)
    (l : List (String × α)) :
    ∀ (m : List (String × α)) (k : String), (assocKeys l).Nodup →
      assocGet (l.foldl
          (fun acc p => if cond p then assocSet acc p.1 p.2 else acc) m) k =
        lookupStep cond (assocGet l k) k (assocGet m k) := by
  induction l with
  | nil => intro m k _; simp [assocGet, lookupStep]
  | cons p rest ih =>
    intro m k hnodup
    rw [assocKeys_cons] at hnodup
    have hhd := (List.nodup_cons.1 hnodup).1
    have htl := (List.nodup_cons.1 hnodup).2
    rw [List.foldl_cons, ih _ k htl]
    by_cases hk : p.1 = k
    · subst hk
      have hrest : assocGet rest p.1 = none := by
        cases hres : assocGet rest p.1 with
        | none => rfl
        | some v =>
          exfalso
          apply hhd
          rw [mem_assocKeys_iff_isSome, hres]
          rfl
      have hget : assocGet (p :: rest) p.1 = some p.2 := by
        simp [assocGet]
      rw [hrest, hget]
      simp only [lookupStep]
      by_cases hc : cond p = true
      · rw [if_pos hc, assocGet_assocSet, if_pos rfl]
        have hcp : cond (p.1, p.2) = true := hc
        rw [if_pos hcp]
      · rw [if_neg hc]
        have hcp : ¬ cond (p.1, p.2) = true := hc
        rw [if_neg hcp]
    · have hget : assocGet (p :: rest) k = assocGet rest k := by
        simp [assocGet, hk]
      have hstep : assocGet (if cond p then assocSet m p.1 p.2 else m) k =
          assocGet m k := by
        by_cases hc : cond p = true
        · rw [if_pos hc, assocGet_assocSet]
          have hne : ¬ k = p.1 := fun hh => hk hh.symm
          rw [if_neg hne]
        · rw [if_neg hc]
      rw [hget, hstep]

/-- C9: the deprecated `Evaluate` propagates `EvaluateV2`'s error
verbatim with no variants, and on success returns exactly those variants
of `EvaluateV2`'s result that are kept by `variantKept` — not marked
default (missing or non-boolean counts as not default) and marked
deployed (missing or non-boolean counts as deployed). -/
theorem evaluate_refines (c : ClientState) (user : ExpUser) (flagKeys : List String) :
    (∀ e, (EvaluateV2 c user flagKeys).2 = .error e →
      (Evaluate c user flagKeys).2 = .error e) ∧
    (∀ variants, (EvaluateV2 c user flagKeys).2 = .ok variants →
      (Evaluate c user flagKeys).2 =
        .ok (variants.foldl
          (fun results p =>
            if variantKept p.2 then assocSet results p.1 p.2 else results) []) ∧
      ∀ k, assocGet (variants.foldl
          (fun results p =>
            if variantKept p.2 then assocSet results p.1 p.2 else results) []) k =
        lookupStep (fun p => variantKept p.2) (assocGet variants k) k none) := by
  constructor
  · intro e he
    cases hv : EvaluateV2 c user flagKeys with
    | mk c2 r =>
      rw [hv] at he
      simp only at he
      simp only [Evaluate, hv, he]
  · intro variants hvars
    cases hv : EvaluateV2 c user flagKeys with
    | mk c2 r =>
      rw [hv] at hvars
      simp only at hvars
      subst hvars
      have hnodup : (assocKeys variants).Nodup :=
        evaluateV2_ok_nodup c user flagKeys variants (by rw [hv])
      constructor
      · simp only [Evaluate, hv]
      · intro k
        have h2 := condFold_assocGet (fun p => variantKept p.2) variants [] k hnodup
        exact h2

/-- Witness for `evaluate_refines`: a concrete client where the engine
returns one non-default deployed variant, which `Evaluate` keeps. -/
theorem evaluate_refines_witness :
    (Evaluate evalState sampleUser ["flag-a"]).2 =
      .ok [("flag-a",
        { Key := "on", Value := "v", Payload := none, Metadata := [] })] :=
  ((evaluate_refines evalState sampleUser ["flag-a"]).2
    [("flag-a", { Key := "on", Value := "v", Payload := none, Metadata := [] })]
    (by rfl)).1

theorem enrichGroupsFold_cohortIds (c : ClientState)
    (grouped : List (String × List String)) (groups : List (String × List String)) :
    ∀ u : ExpUser,
      (groups.foldl (enrichGroupStep c grouped) u).CohortIds = u.CohortIds := by
  induction groups with
  | nil => intro u; rfl
  | cons p rest ih =>
    intro u
    rw [List.foldl_cons, ih]
    simp only [enrichGroupStep]
    by_cases hn : firstName p.2 = ""
    · rw [if_pos hn]
    · rw [if_neg hn]
      cases hgt : assocGet grouped p.1 with
      | none => rfl
      | some ids => rfl

theorem enrichGroupsFold_lookup (c : ClientState)
    (grouped : List (String × List String)) (groups : List (String × List String)) :
    ∀ (u : ExpUser) (gt gn : String),
      assocGet ((groups.foldl (enrichGroupStep c grouped) u).GroupCohortIds) (gt, gn) =
        (if groupTouched groups gt gn ∧ (assocGet grouped gt).isSome = true then
          some (c.getCohortsForGroup gt gn ((assocGet grouped gt).getD []))
        else assocGet u.GroupCohortIds (gt, gn)) := by
  induction groups with
  | nil =>
    intro u gt gn
    have hng : ¬ (groupTouched [] gt gn ∧ (assocGet grouped gt).isSome = true) := by
      rintro ⟨⟨hgn, q, hq, hrest⟩, hsome⟩
      cases hq
    rw [List.foldl_nil, if_neg hng]
  | cons p rest ih =>
    intro u gt gn
    rw [List.foldl_cons, ih]
    by_cases hrest : groupTouched rest gt gn ∧ (assocGet grouped gt).isSome = true
    · rw [if_pos hrest]
      have hcons : groupTouched (p :: rest) gt gn ∧ (assocGet grouped gt).isSome = true := by
        rcases hrest with ⟨⟨hgn, q, hqmem, hq1, hq2⟩, hsome⟩
        exact ⟨⟨hgn, q, List.mem_cons_of_mem p hqmem, hq1, hq2⟩, hsome⟩
      rw [if_pos hcons]
    · rw [if_neg hrest]
      simp only [enrichGroupStep]
      by_cases hn : firstName p.2 = ""
      · rw [if_pos hn]
        have hcons : ¬ (groupTouched (p :: rest) gt gn ∧ (assocGet grouped gt).isSome = true) := by
          rintro ⟨⟨hgn, q, hqmem, hq1, hq2⟩, hsome⟩
          rcases List.mem_cons.1 hqmem with he | hm
          · subst he
            exact hgn (hq2 ▸ hn)
          · exact hrest ⟨⟨hgn, q, hm, hq1, hq2⟩, hsome⟩
        rw [if_neg hcons]
      · rw [if_neg hn]
        cases hgrp : assocGet grouped p.1 with
        | none =>
          have hcons : ¬ (groupTouched (p :: rest) gt gn ∧ (assocGet grouped gt).isSome = true) := by
            rintro ⟨⟨hgn, q, hqmem, hq1, hq2⟩, hsome⟩
            rcases List.mem_cons.1 hqmem with he | hm
            · subst he
              rw [← hq1, hgrp] at hsome
              cases hsome
            · exact hrest ⟨⟨hgn, q, hm, hq1, hq2⟩, hsome⟩
          rw [if_neg hcons]
        | some ids =>
          simp only [addGroupCohortIDs]
          rw [assocGet_assocSet]
          by_cases hpair : ((gt, gn) : String × String) = (p.1, firstName p.2)
          · rw [if_pos hpair]
            have hgt : gt = p.1 := congrArg Prod.fst hpair
            have hgn2 : gn = firstName p.2 := congrArg Prod.snd hpair
            have hcons : groupTouched (p :: rest) gt gn ∧ (assocGet grouped gt).isSome = true := by
              refine ⟨⟨?_, p, List.mem_cons_self p rest, hgt.symm, hgn2.symm⟩, ?_⟩
              · rw [hgn2]; exact hn
              · rw [hgt, hgrp]; rfl
            rw [if_pos hcons, hgt, hgn2, hgrp]
            rfl
          · rw [if_neg hpair]
            have hcons : ¬ (groupTouched (p :: rest) gt gn ∧ (assocGet grouped gt).isSome = true) := by
              rintro ⟨⟨hgn, q, hqmem, hq1, hq2⟩, hsome⟩
              rcases List.mem_cons.1 hqmem with he | hm
              · subst he
                exact hpair (by rw [← hq1, ← hq2])
              · exact hrest ⟨⟨hgn, q, hm, hq1, hq2⟩, hsome⟩
            rw [if_neg hcons]

/-- C7: `enrichUser` sets the user-level cohort ids from the store
exactly when the flag set references at least one user-level cohort and
the user id is non-empty (otherwise they are untouched); and the group
cohort-id map gains an entry at `(gt, gn)` exactly when some membership
of type `gt` has non-empty first name `gn` and the flag set references
cohorts for `gt` — only first names matter, and a missing or empty first
name skips the type. -/
theorem enrichUser_spec (c : ClientState) (user : ExpUser)
    (flagConfigs : List (String × Flag)) :
    ((enrichUser c user flagConfigs).CohortIds =
      if ((assocGet (getGroupedCohortIDsFromFlags (flagConfigs.map Prod.snd))
            userGroupType).getD []).length > 0 ∧ user.UserId ≠ "" then
        c.getCohortsForUser user.UserId
          ((assocGet (getGroupedCohortIDsFromFlags (flagConfigs.map Prod.snd))
            userGroupType).getD [])
      else user.CohortIds) ∧
    (∀ gt gn,
      assocGet (enrichUser c user flagConfigs).GroupCohortIds (gt, gn) =
        if groupTouched user.Groups gt gn ∧
            (assocGet (getGroupedCohortIDsFromFlags (flagConfigs.map Prod.snd))
              gt).isSome = true then
          some (c.getCohortsForGroup gt gn
            ((assocGet (getGroupedCohortIDsFromFlags (flagConfigs.map Prod.snd))
              gt).getD []))
        else assocGet user.GroupCohortIds (gt, gn)) := by
  constructor
  · simp only [enrichUser]
    rw [enrichGroupsFold_cohortIds]
    cases hu : assocGet (getGroupedCohortIDsFromFlags (flagConfigs.map Prod.snd))
        userGroupType with
    | none =>
      have hng : ¬ ((((none : Option (List String))).getD []).length > 0 ∧
          user.UserId ≠ "") := by
        rintro ⟨h1, h2⟩
        simp at h1
      rw [if_neg hng]
    | some ids =>
      simp only [Option.getD_some]
      by_cases hcond : ids.length > 0 ∧ user.UserId ≠ ""
      · rw [if_pos hcond, if_pos hcond]
      · rw [if_neg hcond, if_neg hcond]
  · intro gt gn
    simp only [enrichUser]
    rw [enrichGroupsFold_lookup]
    cases hu : assocGet (getGroupedCohortIDsFromFlags (flagConfigs.map Prod.snd))
        userGroupType with
    | none => rfl
    | some ids =>
      simp only []
      by_cases hcond : ids.length > 0 ∧ user.UserId ≠ ""
      · rw [if_pos hcond]
      · rw [if_neg hcond]

/-- C10: `FlagMetadata` returns nil when the key is absent; otherwise it
returns a fresh map whose contents equal the stored flag's metadata, and
writing through the returned reference leaves the stored metadata
unchanged. -/
theorem flagMetadata_copy (st : StoreState) (flagKey : String) :
    (assocGet st.flags flagKey = none → flagMetadata st flagKey = (st, none)) ∧
    (∀ f, assocGet st.flags flagKey = some f → f.metadataRef < st.heap.length →
      ∃ r, flagMetadata st flagKey =
          ({ st with heap := st.heap ++ [(heapGet st.heap f.metadataRef).getD []] },
            some r) ∧
        r ≠ f.metadataRef ∧
        heapGet (flagMetadata st flagKey).1.heap r = heapGet st.heap f.metadataRef ∧
        (∀ k v,
          heapGet (heapWrite (flagMetadata st flagKey).1.heap r k v) f.metadataRef =
            heapGet st.heap f.metadataRef)) := by
  constructor
  · intro hnone
    simp only [flagMetadata, hnone]
  · intro f hsome hlt
    refine ⟨st.heap.length, ?_, ?_, ?_, ?_⟩
    · simp only [flagMetadata, hsome]
    · exact Nat.ne_of_gt hlt
    · simp only [flagMetadata, hsome]
      have hvalid : heapGet st.heap f.metadataRef =
          some ((heapGet st.heap f.metadataRef).getD []) := by
        cases hh : heapGet st.heap f.metadataRef with
        | none =>
          exfalso
          have : (heapGet st.heap f.metadataRef).isSome := by
            unfold heapGet
            rw [List.getElem?_eq_getElem hlt]
            rfl
          rw [hh] at this
          cases this
        | some m => rfl
      rw [hvalid]
      unfold heapGet
      exact List.getElem?_concat_length _ _
    · intro k v
      simp only [flagMetadata, hsome]
      unfold heapWrite heapGet
      rw [List.getElem?_concat_length]
      rw [List.getElem?_set_ne (Nat.ne_of_gt hlt)]
      exact List.getElem?_append_left hlt

/-- Witness for `flagMetadata_copy`: mutating the copy returned for
`flag-a` leaves the stored metadata map unchanged. -/
theorem flagMetadata_copy_witness :
    heapGet (heapWrite (flagMetadata sampleStore "flag-a").1.heap 1 "default" "false") 0 =
      some [("default", "true")] := by
  have h := (flagMetadata_copy sampleStore "flag-a").2
    { key := "flag-a", metadataRef := 0 } (by decide) (by decide)
  rcases h with ⟨r, heq, hne, hcopy, hframe⟩
  have h1 : (flagMetadata sampleStore "flag-a").2 = some r := by rw [heq]
  have h2 : (flagMetadata sampleStore "flag-a").2 = some 1 := by decide
  rw [h1] at h2
  injection h2 with h3
  subst h3
  have hfr := hframe "default" "false"
  rw [hfr]
  decide

end ExperimentGo
